import Mathlib

/-!
Shallow embedding of `src/xdsl/__init__.py`: the IRDL dialect import
machinery, consisting of `IRDLDialectLoader.exec_module` and
`IRDLDialectFinder.find_spec`, together with the parts of the Python
standard library they use (`os.path.join`, `os.path.basename`,
`os.path.dirname`, `os.path.splitext`, `str.split`, `str.capitalize`,
`sys.modules`, `setattr` on a module, and
`importlib.util.spec_from_file_location`).

The external collaborators (`Parser.parse_module`,
`SymbolTable.lookup_symbol`, `make_dialect`,
`DialectStubGenerator.generate_dialect_stubs`) are oracles supplied in a
`LoadEnv` record, exactly as the spec treats them: interfaces the core
consumes, not covered code.
-/

/-- Index of the last occurrence of `c` in `cs` (Python `str.rfind`, with
`none` in place of `-1`). -/
def rfindChar (cs : List Char) (c : Char) : Option Nat :=
  match cs.reverse.findIdx? (· == c) with
  | none => none
  | some j => some (cs.length - 1 - j)

/-- POSIX `os.path.isabs`: the path starts with a slash. -/
def isAbs (s : String) : Bool := s.data.head? == some '/'

/-- Whether the string's last character is `c` (Python `str.endswith` for a
single-character suffix). -/
def endsWithChar (s : String) (c : Char) : Bool := s.data.getLast? == some c

/-- POSIX `os.path.join` for two components: an absolute second component
replaces the first; otherwise the components are joined with `/` unless the
first is empty or already ends with `/`. -/
def pathJoin (a b : String) : String :=
  if isAbs b then b
  else if a == "" || endsWithChar a '/' then a ++ b
  else a ++ "/" ++ b

/-- Python `str.split` on a one-character separator, over the character
list: always returns at least one (possibly empty) group. -/
def splitOnChar (sep : Char) : List Char → List (List Char)
  | [] => [[]]
  | c :: rest =>
    match splitOnChar sep rest with
    | [] => [[]]
    | g :: gs => if c == sep then [] :: g :: gs else (c :: g) :: gs

/-- POSIX `os.path.basename`: the part after the last slash. -/
def basename (p : String) : String := ⟨(splitOnChar '/' p.data).getLastD []⟩

/-- POSIX `os.path.dirname`: everything up to the last slash, with trailing
slashes stripped unless the result consists only of slashes. -/
def dirname (p : String) : String :=
  let cs := p.data
  let i := match rfindChar cs '/' with
    | none => 0
    | some j => j + 1
  let head := cs.take i
  if head.isEmpty || head.all (· == '/') then ⟨head⟩
  else ⟨(head.reverse.dropWhile (· == '/')).reverse⟩

/-- The root component of POSIX `os.path.splitext`: the path with its
extension removed. The extension starts at the last dot, provided that dot
lies after the last slash and at least one non-dot character precedes it in
the final path component (so `.bashrc` keeps its name). -/
def pySplitextRoot (p : String) : String :=
  let cs := p.data
  match rfindChar cs '.' with
  | none => p
  | some di =>
    let startIdx := match rfindChar cs '/' with
      | none => 0
      | some si => si + 1
    if startIdx ≤ di then
      if ((cs.drop startIdx).take (di - startIdx)).any (· != '.') then ⟨cs.take di⟩
      else p
    else p

/-- Python `fullname.split(".")[-1]`: the last dot-separated segment. -/
def lastSegment (s : String) : String := ⟨(splitOnChar '.' s.data).getLastD []⟩

/-- Python `str.capitalize`: the first character upper-cased and the whole
remainder lower-cased. -/
def pyCapitalize (s : String) : String :=
  match s.data with
  | [] => ""
  | c :: rest => ⟨c.toUpper :: rest.map Char.toLower⟩

/-- The filesystem, as a finite map from path to file contents. -/
abbrev FileSys := List (String × String)

/-- `os.path.isfile`. -/
def isfile (fs : FileSys) (p : String) : Bool := fs.any (·.1 == p)

/-- `open(p).read()`, `none` when opening fails because the file is absent. -/
def readFile (fs : FileSys) (p : String) : Option String :=
  (fs.find? (·.1 == p)).map (·.2)

/-- Writing a file: overwrite in place when present, create otherwise. -/
def writeFile (fs : FileSys) (p c : String) : FileSys :=
  if fs.any (·.1 == p) then fs.map (fun q => if q.1 == p then (p, c) else q)
  else fs ++ [(p, c)]

/-- A generated PyRDL entity (an attribute or operation class): its Python
`__name__` and an identity for the rest of the class. -/
structure Entity where
  pyName : String
  defn : String
  deriving DecidableEq

/-- The Dialect object produced by `make_dialect`: a name, the
attribute-entities and the operation-entities. -/
structure Dialect where
  name : String
  attributes : List Entity
  operations : List Entity
  deriving DecidableEq

/-- A value bound in a module's namespace. -/
inductive PyVal where
  | entity (e : Entity)
  | dialect (d : Dialect)
  | plain (s : String)
  deriving DecidableEq

/-- A Python module namespace: an insertion-ordered map from attribute name
to value, as a `dict` is. (Named `ModuleNS` because `Module` is taken.) -/
abbrev ModuleNS := List (String × PyVal)

/-- Python `getattr` on a module. -/
def getattr (m : ModuleNS) (k : String) : Option PyVal :=
  (m.find? (·.1 == k)).map (·.2)

/-- Python `setattr` on a module: replace in place when the key exists,
append otherwise (dict insertion semantics). -/
def setattr (m : ModuleNS) (k : String) (v : PyVal) : ModuleNS :=
  if m.any (·.1 == k) then m.map (fun p => if p.1 == k then (k, v) else p)
  else m ++ [(k, v)]

/-- The loop `for obj in chain(dialect.attributes, dialect.operations):
setattr(module, obj.__name__, obj)`, applied to an arbitrary entity list. -/
def bindEntities (l : List Entity) (m : ModuleNS) : ModuleNS :=
  l.foldl (fun acc e => setattr acc e.pyName (.entity e)) m

/-- The binding-injection step at the end of `exec_module`: the entity loop
over `chain(dialect.attributes, dialect.operations)` followed by
`setattr(module, dialect.name.capitalize(), dialect)`. -/
def injectBindings (d : Dialect) (m : ModuleNS) : ModuleNS :=
  setattr (bindEntities (d.attributes ++ d.operations) m)
    (pyCapitalize d.name) (.dialect d)

/-- The parsed IRDL module returned by `Parser.parse_module`. -/
structure ParsedUnit where
  raw : String
  deriving DecidableEq

/-- A top-level node found by `SymbolTable.lookup_symbol`: either a
`DialectOp` or some other operation kind. -/
inductive Node where
  | dialectOp (body : String)
  | nonDialect (kind : String)
  deriving DecidableEq

/-- The ways a load can abort. In the Python source both declaration
failures surface from the single `assert isinstance(dialect_op, DialectOp)`:
the embedding splits that abort by its observable cause (lookup returned
`None` versus a non-`DialectOp` node). -/
inductive LoadErr where
  | ioRead
  | compileError (msg : String)
  | declarationMissing
  | declarationTypeMismatch
  | buildError (msg : String)
  | ioWrite
  deriving DecidableEq

/-- The external collaborators `exec_module` calls, as oracles. `writeOk`
says whether opening the given path for writing succeeds. -/
structure LoadEnv where
  parse : String → Except String ParsedUnit
  lookup_symbol : ParsedUnit → String → Option Node
  make_dialect : String → Except String Dialect
  generate_dialect_stubs : Dialect → String
  writeOk : String → Bool

/-- `IRDLDialectLoader.__init__`. -/
structure IRDLDialectLoader where
  module_name : String
  path : String
  deriving DecidableEq

/-- The outcome of `exec_module`: the raised exception if any, and the
filesystem and target-module namespace as they stand when control returns
(side effects performed before an exception persist). -/
structure ExecOutcome where
  err : Option LoadErr
  fs : FileSys
  module : ModuleNS
  deriving DecidableEq

/-- The stub file's contents: the fixed auto-generated header naming the
originating source path (first `print`), then the rendered stubs (second
`print`), each `print` appending a newline. -/
def stubContents (path : String) (stubs : String) : String :=
  "\"\"\"\nThis file is automatically generated by xDSL and not meant to be modified.\n\nIt was generated from "
    ++ path ++ "\n\"\"\"\n\n" ++ stubs ++ "\n"

/-- `IRDLDialectLoader.exec_module`: read the IRDL file, parse it, look up
the top-level symbol named after the file's base name, require it to be a
`DialectOp`, build the dialect, write the `.pyi` stub next to the source,
then inject the bindings into the target module. -/
def exec_module (env : LoadEnv) (ldr : IRDLDialectLoader) (fs : FileSys)
    (module : ModuleNS) : ExecOutcome :=
  match readFile fs ldr.path with
  | none => ⟨some .ioRead, fs, module⟩
  | some text =>
    match env.parse text with
    | .error e => ⟨some (.compileError e), fs, module⟩
    | .ok irdlModule =>
      let dialect_name := pySplitextRoot (basename ldr.path)
      match env.lookup_symbol irdlModule dialect_name with
      | none => ⟨some .declarationMissing, fs, module⟩
      | some (.nonDialect _) => ⟨some .declarationTypeMismatch, fs, module⟩
      | some (.dialectOp body) =>
        match env.make_dialect body with
        | .error e => ⟨some (.buildError e), fs, module⟩
        | .ok dialect =>
          let stubPath := dirname ldr.path ++ "/" ++ dialect_name ++ ".pyi"
          if env.writeOk stubPath then
            ⟨none,
             writeFile fs stubPath
               (stubContents ldr.path (env.generate_dialect_stubs dialect)),
             injectBindings dialect module⟩
          else ⟨some .ioWrite, fs, module⟩

/-- A module spec (`importlib.machinery.ModuleSpec`): the name, the origin
path, and the attached loader if any. -/
structure ModuleSpec where
  name : String
  origin : String
  loader : Option IRDLDialectLoader
  deriving DecidableEq

/-- An entry of `sys.modules`, exposing its `__spec__`. -/
structure PyModule where
  spec : Option ModuleSpec
  deriving DecidableEq

/-- `sys.modules`: the process-wide cache from fully-qualified name to
already-materialized module. -/
abbrev SysModules := List (String × PyModule)

/-- A filesystem interaction, for tracing what `find_spec` touches. -/
inductive FsOp where
  | isfileCheck (p : String)
  | openRead (p : String)
  | openWrite (p : String)
  | cacheInsert (k : String)
  deriving DecidableEq

/-- `importlib.util.spec_from_file_location`: builds a spec for the given
name and location with the supplied loader; a relative location is made
absolute by joining it onto the current working directory (CPython
`_bootstrap_external.spec_from_file_location`). -/
def spec_from_file_location (cwd : String) (name location : String)
    (loader : Option IRDLDialectLoader) : ModuleSpec :=
  { name := name
    origin := if isAbs location then location else pathJoin cwd location
    loader := loader }

/-- The search loop of `find_spec`: try each candidate directory in order;
on the first directory whose join with the target filename is a file, build
the loader and the spec. The trace records each `os.path.isfile` check. -/
def searchEntries (cwd fullname filename : String) (fs : FileSys) :
    List String → Option ModuleSpec × List FsOp
  | [] => (none, [])
  | entry :: rest =>
    let potential_path := pathJoin entry filename
    if isfile fs potential_path then
      (some (spec_from_file_location cwd fullname potential_path
        (some ⟨fullname, potential_path⟩)),
       [.isfileCheck potential_path])
    else
      let r := searchEntries cwd fullname filename fs rest
      (r.1, .isfileCheck potential_path :: r.2)

/-- `IRDLDialectFinder.find_spec`: return the cached module's `__spec__`
when the name is already in `sys.modules`; otherwise derive the target
filename from the last dot-separated segment plus `.irdl`, default the
search path to `[os.getcwd()]`, and search the candidate directories in
order. Returns the result and the trace of filesystem interactions. -/
def find_spec (sysModules : SysModules) (fs : FileSys) (cwd : String)
    (fullname : String) (path : Option (List String)) :
    Option ModuleSpec × List FsOp :=
  match sysModules.find? (·.1 == fullname) with
  | some m => (m.2.spec, [])
  | none =>
    let filename := lastSegment fullname ++ ".irdl"
    let entries := path.getD [cwd]
    searchEntries cwd fullname filename fs entries

example : pySplitextRoot (basename "dialects/arith.irdl") = "arith" := by decide

example : pyCapitalize "arith" = "Arith" := by decide

example : pyCapitalize "myDialect" = "Mydialect" := by decide

example : pathJoin "/a" "b.irdl" = "/a/b.irdl" := by decide

example : lastSegment "dialects.arith" = "arith" := by decide

example : dirname "dialects/arith.irdl" = "dialects" := by decide

/-! ### Association-list lemmas for the module namespace -/

theorem bool_not_true {b : Bool} (h : ¬b = true) : b = false := by
  cases b
  · rfl
  · exact absurd rfl h

theorem find?_update_self (m : ModuleNS) (k : String) (v : PyVal)
    (h : m.any (·.1 == k) = true) :
    (m.map fun p => if p.1 == k then (k, v) else p).find? (·.1 == k) =
      some (k, v) := by
  induction m with
  | nil => simp at h
  | cons p t ih =>
    by_cases hp : (p.1 == k) = true
    · rw [List.map_cons, if_pos hp, List.find?_cons]
      simp
    · have hp' : (p.1 == k) = false := bool_not_true hp
      rw [List.map_cons, if_neg hp, List.find?_cons]
      simp only [hp']
      exact ih (by simpa [List.any_cons, hp'] using h)

theorem find?_append_single (m : ModuleNS) (k : String) (v : PyVal)
    (h : m.any (·.1 == k) = false) :
    (m ++ [(k, v)]).find? (·.1 == k) = some (k, v) := by
  rw [List.find?_append]
  have hnone : m.find? (·.1 == k) = none := by
    rw [List.find?_eq_none]
    intro x hx hxk
    have hany : m.any (·.1 == k) = true := List.any_eq_true.mpr ⟨x, hx, hxk⟩
    rw [h] at hany
    exact Bool.false_ne_true hany
  rw [hnone]
  simp [List.find?_cons]

theorem getattr_setattr_self (m : ModuleNS) (k : String) (v : PyVal) :
    getattr (setattr m k v) k = some v := by
  unfold getattr setattr
  by_cases h : m.any (·.1 == k) = true
  · rw [if_pos h, find?_update_self m k v h]
    rfl
  · rw [if_neg h, find?_append_single m k v (bool_not_true h)]
    rfl

theorem find?_update_ne (m : ModuleNS) (k k' : String) (v : PyVal)
    (h : k' ≠ k) :
    (m.map fun p => if p.1 == k then (k, v) else p).find? (·.1 == k') =
      m.find? (·.1 == k') := by
  have hkk : (k == k') = false := by
    simp only [beq_eq_false_iff_ne, ne_eq]
    exact fun hh => h hh.symm
  induction m with
  | nil => rfl
  | cons p t ih =>
    by_cases hp : (p.1 == k) = true
    · have hpk : p.1 = k := by simpa using hp
      have h2 : (p.1 == k') = false := by rw [hpk]; exact hkk
      simp only [List.map_cons, if_pos hp, List.find?_cons, hkk, h2, ih]
    · rw [List.map_cons, if_neg hp, List.find?_cons, List.find?_cons]
      by_cases hp' : (p.1 == k') = true
      · simp only [hp']
      · simp only [bool_not_true hp']
        exact ih

theorem getattr_setattr_ne (m : ModuleNS) (k k' : String) (v : PyVal)
    (h : k' ≠ k) :
    getattr (setattr m k v) k' = getattr m k' := by
  have hkk : (k == k') = false := by
    simp only [beq_eq_false_iff_ne, ne_eq]
    exact fun hh => h hh.symm
  unfold getattr setattr
  by_cases hm : m.any (·.1 == k) = true
  · rw [if_pos hm, find?_update_ne m k k' v h]
  · rw [if_neg hm, List.find?_append]
    have hone : List.find? (·.1 == k') [(k, v)] = none := by
      simp [List.find?_cons, hkk]
    rw [hone, Option.or_none]

/-- The keys of a module namespace, in insertion order. -/
def keysOf (m : ModuleNS) : List String := m.map (·.1)

theorem any_eq_mem_keys (m : ModuleNS) (k : String) :
    m.any (·.1 == k) = true ↔ k ∈ keysOf m := by
  simp only [keysOf, List.any_eq_true, List.mem_map, beq_iff_eq]

theorem keys_setattr_not_mem (m : ModuleNS) (k : String) (v : PyVal)
    (h : k ∉ keysOf m) :
    keysOf (setattr m k v) = keysOf m ++ [k] := by
  unfold setattr
  rw [if_neg (fun hc => h ((any_eq_mem_keys m k).mp hc))]
  simp [keysOf]

theorem keys_setattr_mem (m : ModuleNS) (k : String) (v : PyVal)
    (h : k ∈ keysOf m) :
    keysOf (setattr m k v) = keysOf m := by
  unfold setattr
  rw [if_pos ((any_eq_mem_keys m k).mpr h)]
  simp only [keysOf, List.map_map]
  apply List.map_congr_left
  intro p _
  by_cases hp : (p.1 == k) = true
  · simp only [Function.comp_apply, if_pos hp]
    exact ((by simpa using hp : p.1 = k)).symm
  · simp only [Function.comp_apply, if_neg hp]

theorem getattr_bindEntities (l : List Entity) (m : ModuleNS) (n : String) :
    getattr (bindEntities l m) n =
      match l.reverse.find? (fun e => e.pyName == n) with
      | some e => some (.entity e)
      | none => getattr m n := by
  induction l generalizing m with
  | nil => rfl
  | cons e t ih =>
    have hstep : bindEntities (e :: t) m =
        bindEntities t (setattr m e.pyName (.entity e)) := rfl
    rw [hstep, ih, List.reverse_cons, List.find?_append]
    cases hf : t.reverse.find? (fun x => x.pyName == n) with
    | some x => rfl
    | none =>
      simp only [Option.none_or]
      by_cases he : (e.pyName == n) = true
      · simp only [List.find?_cons, he]
        have hn : n = e.pyName := (by simpa using he : e.pyName = n).symm
        subst hn
        exact getattr_setattr_self m _ _
      · have he' : (e.pyName == n) = false := bool_not_true he
        simp only [List.find?_cons, he', List.find?_nil]
        exact getattr_setattr_ne m _ n _
          (fun hh => he (by simp [hh]))

theorem keys_bindEntities_fresh (l : List Entity) (m : ModuleNS)
    (hnd : (l.map (·.pyName)).Nodup)
    (hf : ∀ e ∈ l, e.pyName ∉ keysOf m) :
    keysOf (bindEntities l m) = keysOf m ++ l.map (·.pyName) := by
  induction l generalizing m with
  | nil => simp [bindEntities, keysOf]
  | cons e t ih =>
    rw [List.map_cons] at hnd
    have hhead : e.pyName ∉ t.map (·.pyName) := (List.nodup_cons.mp hnd).1
    have hnd' : (t.map (·.pyName)).Nodup := (List.nodup_cons.mp hnd).2
    have hstep : bindEntities (e :: t) m =
        bindEntities t (setattr m e.pyName (.entity e)) := rfl
    have hnotmem : e.pyName ∉ keysOf m := hf e (by simp)
    have hkeys := keys_setattr_not_mem m e.pyName (.entity e) hnotmem
    have hf' : ∀ x ∈ t, x.pyName ∉ keysOf (setattr m e.pyName (.entity e)) := by
      intro x hx
      rw [hkeys]
      intro hc
      rcases List.mem_append.mp hc with hc1 | hc2
      · exact hf x (by simp [hx]) hc1
      · have hxe : x.pyName = e.pyName := by simpa using hc2
        exact hhead (hxe ▸ List.mem_map.mpr ⟨x, hx, rfl⟩)
    rw [hstep, ih (setattr m e.pyName (.entity e)) hnd' hf', hkeys,
      List.append_assoc]
    simp

theorem find?_name_nodup (l : List Entity) (e : Entity)
    (hnd : (l.map (·.pyName)).Nodup) (he : e ∈ l) :
    l.find? (fun x => x.pyName == e.pyName) = some e := by
  induction l with
  | nil => cases he
  | cons a t ih =>
    rw [List.map_cons] at hnd
    rcases List.mem_cons.mp he with rfl | ht
    · simp [List.find?_cons]
    · have hne : (a.pyName == e.pyName) = false := by
        rw [beq_eq_false_iff_ne, ne_eq]
        intro hh
        have hmem : a.pyName ∈ t.map (·.pyName) :=
          List.mem_map.mpr ⟨e, ht, hh.symm⟩
        exact (List.nodup_cons.mp hnd).1 hmem
      simp only [List.find?_cons, hne]
      exact ih (List.nodup_cons.mp hnd).2 ht

theorem find?_reverse_of_filter (l : List Entity) (p : Entity → Bool)
    (o : Entity) (h : l.filter p = [o]) :
    l.reverse.find? p = some o := by
  induction l with
  | nil => simp at h
  | cons a t ih =>
    rw [List.filter_cons] at h
    by_cases pa : p a = true
    · rw [if_pos pa] at h
      obtain ⟨ha, ht⟩ := List.cons_eq_cons.mp h
      rw [List.reverse_cons, List.find?_append]
      have hnone : t.reverse.find? p = none := by
        rw [List.find?_eq_none]
        intro x hx hpx
        have hmem : x ∈ t.filter p := List.mem_filter.mpr ⟨by simpa using hx, hpx⟩
        rw [ht] at hmem
        cases hmem
      rw [hnone, Option.none_or]
      subst ha
      simp [List.find?_cons, pa]
    · rw [if_neg pa] at h
      have pa' : p a = false := bool_not_true pa
      rw [List.reverse_cons, List.find?_append, ih h]
      rfl

/-! ### Lemmas about the Resolver's search loop -/

theorem searchEntries_no_hit (cwd fullname filename : String) (fs : FileSys) :
    ∀ l : List String,
      (∀ e ∈ l, isfile fs (pathJoin e filename) = false) →
      (searchEntries cwd fullname filename fs l).1 = none ∧
        ∀ op ∈ (searchEntries cwd fullname filename fs l).2,
          ∃ p, op = FsOp.isfileCheck p := by
  intro l
  induction l with
  | nil =>
    intro _
    refine ⟨rfl, fun op hop => ?_⟩
    simp [searchEntries] at hop
  | cons e t ih =>
    intro h
    have he : isfile fs (pathJoin e filename) = false := h e (by simp)
    have iht := ih (fun x hx => h x (by simp [hx]))
    simp only [searchEntries, he]
    refine ⟨by simpa using iht.1, fun op hop => ?_⟩
    simp only [Bool.false_eq_true, if_false, List.mem_cons] at hop
    rcases hop with rfl | hop
    · exact ⟨pathJoin e filename, rfl⟩
    · exact iht.2 op hop

theorem searchEntries_some (cwd fullname filename : String) (fs : FileSys) :
    ∀ (l : List String) (spec : ModuleSpec),
      (searchEntries cwd fullname filename fs l).1 = some spec →
      ∃ p, spec = spec_from_file_location cwd fullname p (some ⟨fullname, p⟩) := by
  intro l
  induction l with
  | nil =>
    intro spec h
    simp [searchEntries] at h
  | cons e t ih =>
    intro spec h
    by_cases hf : isfile fs (pathJoin e filename) = true
    · simp only [searchEntries, hf, if_true] at h
      exact ⟨pathJoin e filename, by injection h with h1; exact h1.symm⟩
    · have hf' := bool_not_true hf
      simp only [searchEntries, hf', Bool.false_eq_true, if_false] at h
      exact ih spec h

theorem isAbs_append (a b : String) (h : isAbs a = true) :
    isAbs (a ++ b) = true := by
  obtain ⟨l⟩ := a
  obtain ⟨l'⟩ := b
  show ((l ++ l').head? == some '/') = true
  cases l with
  | nil => simp [isAbs] at h
  | cons c cs => simpa [isAbs] using h

theorem isAbs_pathJoin (cwd p : String) (hcwd : isAbs cwd = true) :
    isAbs (pathJoin cwd p) = true := by
  unfold pathJoin
  by_cases hp : isAbs p = true
  · rw [if_pos hp]
    exact hp
  · rw [if_neg hp]
    by_cases hc : (cwd == "" || endsWithChar cwd '/') = true
    · rw [if_pos hc]
      exact isAbs_append cwd p hcwd
    · rw [if_neg hc]
      exact isAbs_append _ _ (isAbs_append cwd "/" hcwd)

theorem isAbs_spec_origin (cwd n p : String) (ldr : Option IRDLDialectLoader)
    (hcwd : isAbs cwd = true) :
    isAbs (spec_from_file_location cwd n p ldr).origin = true := by
  show isAbs (if isAbs p = true then p else pathJoin cwd p) = true
  by_cases hp : isAbs p = true
  · rw [if_pos hp]
    exact hp
  · rw [if_neg hp]
    exact isAbs_pathJoin cwd p hcwd

/-! ### Claims about the Resolver (`IRDLDialectFinder.find_spec`) -/

/-- C1: for a fully-qualified name already present in `sys.modules`,
`find_spec` returns the cached module's existing `__spec__` verbatim, and
performs no filename derivation, no directory search and no compilation:
its result is the cached descriptor whatever the filesystem, working
directory or search path are, and its filesystem-interaction trace is
empty. -/
theorem find_spec_cache_hit (sysModules : SysModules) (fs : FileSys)
    (cwd fullname : String) (path : Option (List String))
    (mod : String × PyModule)
    (h : sysModules.find? (·.1 == fullname) = some mod) :
    find_spec sysModules fs cwd fullname path = (mod.2.spec, []) := by
  unfold find_spec
  rw [h]

def cachedSpecW : ModuleSpec :=
  ⟨"pkg.arith", "/home/arith.irdl", some ⟨"pkg.arith", "/home/arith.irdl"⟩⟩

def sysModulesW : SysModules := [("pkg.arith", ⟨some cachedSpecW⟩)]

theorem find_spec_cache_hit_witness :
    find_spec sysModulesW [("A/arith.irdl", "x")] "/cwd" "pkg.arith"
      (some ["A"]) = (some cachedSpecW, []) :=
  find_spec_cache_hit sysModulesW [("A/arith.irdl", "x")] "/cwd" "pkg.arith"
    (some ["A"]) ("pkg.arith", ⟨some cachedSpecW⟩) rfl

/-- C9: when the requested name is present in `sys.modules` but the cached
module's `__spec__` is `None`, `find_spec` returns `None`, falling through
as "no match" instead of returning a descriptor. -/
theorem find_spec_cached_none_spec (sysModules : SysModules) (fs : FileSys)
    (cwd fullname : String) (path : Option (List String))
    (mod : String × PyModule)
    (h : sysModules.find? (·.1 == fullname) = some mod)
    (hs : mod.2.spec = none) :
    (find_spec sysModules fs cwd fullname path).1 = none := by
  unfold find_spec
  rw [h]
  exact hs

theorem find_spec_cached_none_spec_witness :
    (find_spec [("pkg.arith", ⟨none⟩)] [("A/arith.irdl", "x")] "/cwd"
      "pkg.arith" (some ["A"])).1 = none :=
  find_spec_cached_none_spec [("pkg.arith", ⟨none⟩)] [("A/arith.irdl", "x")]
    "/cwd" "pkg.arith" (some ["A"]) ("pkg.arith", ⟨none⟩) rfl rfl

/-- C4: for a name not in the cache, the Resolver's target filename is the
last dot-separated segment of the name with `.irdl` appended; a missing
search path behaves as the single-entry path `[cwd]`; and with candidates
`[A, B]` both containing the target file, the descriptor is built from the
file in `A` (first match wins). -/
theorem find_spec_search (sysModules : SysModules) (fs : FileSys)
    (cwd fullname A B : String)
    (hc : sysModules.find? (·.1 == fullname) = none)
    (hA : isfile fs (pathJoin A (lastSegment fullname ++ ".irdl")) = true)
    (_hB : isfile fs (pathJoin B (lastSegment fullname ++ ".irdl")) = true) :
    find_spec sysModules fs cwd fullname none =
      find_spec sysModules fs cwd fullname (some [cwd]) ∧
    (find_spec sysModules fs cwd fullname (some [A, B])).1 =
      some (spec_from_file_location cwd fullname
        (pathJoin A (lastSegment fullname ++ ".irdl"))
        (some ⟨fullname, pathJoin A (lastSegment fullname ++ ".irdl")⟩)) := by
  constructor
  · unfold find_spec
    rw [hc]
    rfl
  · unfold find_spec
    rw [hc]
    simp [searchEntries, hA]

def fsSearchW : FileSys := [("A/arith.irdl", "aa"), ("B/arith.irdl", "bb")]

theorem find_spec_search_witness :
    (find_spec [] fsSearchW "/cwd" "pkg.arith" (some ["A", "B"])).1 =
      some (spec_from_file_location "/cwd" "pkg.arith" "A/arith.irdl"
        (some ⟨"pkg.arith", "A/arith.irdl"⟩)) :=
  (find_spec_search [] fsSearchW "/cwd" "pkg.arith" "A" "B" rfl (by decide)
    (by decide)).2

/-- C5: for a name not in the cache with no matching description file in
any candidate directory, `find_spec` returns `None` rather than raising,
and its only filesystem interactions are existence checks: the trace holds
`isfile` probes only — no file is opened, no cache entry is written. -/
theorem find_spec_no_match (sysModules : SysModules) (fs : FileSys)
    (cwd fullname : String) (path : Option (List String))
    (hc : sysModules.find? (·.1 == fullname) = none)
    (hno : ∀ e ∈ path.getD [cwd],
      isfile fs (pathJoin e (lastSegment fullname ++ ".irdl")) = false) :
    (find_spec sysModules fs cwd fullname path).1 = none ∧
      ∀ op ∈ (find_spec sysModules fs cwd fullname path).2,
        ∃ p, op = FsOp.isfileCheck p := by
  unfold find_spec
  rw [hc]
  exact searchEntries_no_hit cwd fullname _ fs (path.getD [cwd]) hno

theorem find_spec_no_match_witness :
    (find_spec [] [("A/other.irdl", "x")] "/cwd" "pkg.arith"
      (some ["A"])).1 = none :=
  (find_spec_no_match [] [("A/other.irdl", "x")] "/cwd" "pkg.arith"
    (some ["A"]) rfl (by
      intro e he
      have he' : e = "A" := by simpa using he
      subst he'
      decide)).1

/-- C8: on a successful match the produced descriptor's origin is an
absolute path, whether the candidate directory entry was relative or
absolute (a relative matched path is absolutized against the current
working directory, itself absolute). -/
theorem find_spec_absolute_origin (sysModules : SysModules) (fs : FileSys)
    (cwd fullname : String) (path : Option (List String)) (spec : ModuleSpec)
    (hcwd : isAbs cwd = true)
    (hc : sysModules.find? (·.1 == fullname) = none)
    (h : (find_spec sysModules fs cwd fullname path).1 = some spec) :
    isAbs spec.origin = true := by
  unfold find_spec at h
  rw [hc] at h
  obtain ⟨p, rfl⟩ :=
    searchEntries_some cwd fullname _ fs (path.getD [cwd]) spec h
  exact isAbs_spec_origin cwd fullname p _ hcwd

def specRelW : ModuleSpec :=
  spec_from_file_location "/cwd" "pkg.arith" "rel/arith.irdl"
    (some ⟨"pkg.arith", "rel/arith.irdl"⟩)

theorem find_spec_absolute_origin_witness :
    isAbs specRelW.origin = true :=
  find_spec_absolute_origin [] [("rel/arith.irdl", "x")] "/cwd" "pkg.arith"
    (some ["rel"]) specRelW (by decide) rfl (by decide)

/-! ### Claims about the Materializer (`IRDLDialectLoader.exec_module`) -/

theorem exec_module_success_eq (env : LoadEnv) (ldr : IRDLDialectLoader)
    (fs : FileSys) (m : ModuleNS) (text : String) (u : ParsedUnit)
    (body : String) (d : Dialect)
    (hr : readFile fs ldr.path = some text)
    (hp : env.parse text = .ok u)
    (hl : env.lookup_symbol u (pySplitextRoot (basename ldr.path)) =
      some (.dialectOp body))
    (hb : env.make_dialect body = .ok d)
    (hw : env.writeOk (dirname ldr.path ++ "/" ++
      pySplitextRoot (basename ldr.path) ++ ".pyi") = true) :
    exec_module env ldr fs m =
      ⟨none,
       writeFile fs
         (dirname ldr.path ++ "/" ++ pySplitextRoot (basename ldr.path)
           ++ ".pyi")
         (stubContents ldr.path (env.generate_dialect_stubs d)),
       injectBindings d m⟩ := by
  simp only [exec_module, hr, hp, hl, hb, hw, if_true]

/-- C6: when the top-level symbol lookup for the file's base name finds no
node the load aborts with the missing-declaration failure, and when it
finds a node that is not a dialect declaration it aborts with the
type-mismatch failure; in both cases the filesystem is returned exactly as
it was (no stub written) and the target module's namespace is unchanged (no
bindings installed). -/
theorem exec_module_declaration_errors (env : LoadEnv)
    (ldr : IRDLDialectLoader) (fs : FileSys) (m : ModuleNS) (text : String)
    (u : ParsedUnit)
    (hr : readFile fs ldr.path = some text)
    (hp : env.parse text = .ok u) :
    (env.lookup_symbol u (pySplitextRoot (basename ldr.path)) = none →
      exec_module env ldr fs m = ⟨some .declarationMissing, fs, m⟩) ∧
    ∀ kind,
      env.lookup_symbol u (pySplitextRoot (basename ldr.path)) =
          some (.nonDialect kind) →
        exec_module env ldr fs m = ⟨some .declarationTypeMismatch, fs, m⟩ := by
  constructor
  · intro hl
    simp only [exec_module, hr, hp, hl]
  · intro kind hl
    simp only [exec_module, hr, hp, hl]

def ldrW : IRDLDialectLoader := ⟨"dialects.arith", "dialects/arith.irdl"⟩

def fsW : FileSys := [("dialects/arith.irdl", "irdl.dialect bad")]

def envMissingW : LoadEnv :=
  { parse := fun t => .ok ⟨t⟩
    lookup_symbol := fun _ _ => none
    make_dialect := fun _ => .error "unused"
    generate_dialect_stubs := fun _ => "unused"
    writeOk := fun _ => true }

theorem exec_module_declaration_errors_witness :
    exec_module envMissingW ldrW fsW [] =
      ⟨some .declarationMissing, fsW, []⟩ :=
  (exec_module_declaration_errors envMissingW ldrW fsW []
    "irdl.dialect bad" ⟨"irdl.dialect bad"⟩ rfl rfl).1 rfl

/-- C7: every fatal condition aborts the load before any binding reaches
the target module: whenever `exec_module` returns with an error — read
failure, compile error, missing or mismatched declaration, build error, or
stub-write failure — the target module's namespace is exactly what it was
before the call. -/
theorem exec_module_no_partial (env : LoadEnv) (ldr : IRDLDialectLoader)
    (fs : FileSys) (m : ModuleNS)
    (h : (exec_module env ldr fs m).err.isSome = true) :
    (exec_module env ldr fs m).module = m := by
  unfold exec_module at h ⊢
  cases hr : readFile fs ldr.path with
  | none => simp only [hr]
  | some text =>
    cases hp : env.parse text with
    | error e => simp only [hr, hp]
    | ok u =>
      cases hl : env.lookup_symbol u (pySplitextRoot (basename ldr.path)) with
      | none => simp only [hr, hp, hl]
      | some node =>
        cases node with
        | nonDialect kind => simp only [hr, hp, hl]
        | dialectOp body =>
          cases hb : env.make_dialect body with
          | error e => simp only [hr, hp, hl, hb]
          | ok d =>
            by_cases hw : env.writeOk (dirname ldr.path ++ "/" ++
                pySplitextRoot (basename ldr.path) ++ ".pyi") = true
            · simp only [hr, hp, hl, hb, hw, if_true] at h
              simp at h
            · have hw' := bool_not_true hw
              simp only [hr, hp, hl, hb, hw', Bool.false_eq_true, if_false]

def envParseFailW : LoadEnv :=
  { parse := fun _ => .error "syntax error"
    lookup_symbol := fun _ _ => none
    make_dialect := fun _ => .error "unused"
    generate_dialect_stubs := fun _ => "unused"
    writeOk := fun _ => true }

theorem exec_module_no_partial_witness :
    (exec_module envParseFailW ldrW fsW [("pre", .plain "p")]).module =
      [("pre", .plain "p")] :=
  exec_module_no_partial envParseFailW ldrW fsW [("pre", .plain "p")] rfl

/-- C2: after a successful load every attribute-entity and operation-entity
of the built Dialect object is bound in the module under its own entity
name, exactly one additional binding — the capitalized dialect name,
referencing the Dialect object — is added, and no other module attribute is
added or modified: pre-existing attributes are untouched, and the namespace
grows by exactly the entity count plus one. (The distinctness hypotheses
are the spec's data-model invariant: entity names unique within the
dialect, the handle name and entity names fresh in the module.) -/
theorem exec_module_bindings (env : LoadEnv) (ldr : IRDLDialectLoader)
    (fs : FileSys) (m : ModuleNS) (text : String) (u : ParsedUnit)
    (body : String) (d : Dialect)
    (hr : readFile fs ldr.path = some text)
    (hp : env.parse text = .ok u)
    (hl : env.lookup_symbol u (pySplitextRoot (basename ldr.path)) =
      some (.dialectOp body))
    (hb : env.make_dialect body = .ok d)
    (hw : env.writeOk (dirname ldr.path ++ "/" ++
      pySplitextRoot (basename ldr.path) ++ ".pyi") = true)
    (hnd : ((d.attributes ++ d.operations).map (·.pyName)).Nodup)
    (hcap : pyCapitalize d.name ∉
      (d.attributes ++ d.operations).map (·.pyName))
    (hfresh : ∀ e ∈ d.attributes ++ d.operations, e.pyName ∉ keysOf m)
    (hcapfresh : pyCapitalize d.name ∉ keysOf m) :
    (exec_module env ldr fs m).err = none ∧
    (∀ e ∈ d.attributes ++ d.operations,
      getattr (exec_module env ldr fs m).module e.pyName =
        some (.entity e)) ∧
    getattr (exec_module env ldr fs m).module (pyCapitalize d.name) =
      some (.dialect d) ∧
    (∀ k, k ∉ (d.attributes ++ d.operations).map (·.pyName) →
      k ≠ pyCapitalize d.name →
      getattr (exec_module env ldr fs m).module k = getattr m k) ∧
    (exec_module env ldr fs m).module.length =
      m.length + (d.attributes ++ d.operations).length + 1 := by
  rw [exec_module_success_eq env ldr fs m text u body d hr hp hl hb hw]
  have hkeysb : keysOf (bindEntities (d.attributes ++ d.operations) m) =
      keysOf m ++ (d.attributes ++ d.operations).map (·.pyName) :=
    keys_bindEntities_fresh (d.attributes ++ d.operations) m hnd hfresh
  refine ⟨rfl, ?_, ?_, ?_, ?_⟩
  · intro e he
    show getattr (injectBindings d m) e.pyName = some (.entity e)
    unfold injectBindings
    rw [getattr_setattr_ne _ _ _ _
      (fun hh => hcap (by rw [← hh]; exact List.mem_map.mpr ⟨e, he, rfl⟩))]
    rw [getattr_bindEntities]
    have hfind : (d.attributes ++ d.operations).reverse.find?
        (fun x => x.pyName == e.pyName) = some e :=
      find?_name_nodup (d.attributes ++ d.operations).reverse e
        (by rw [List.map_reverse]; exact List.nodup_reverse.mpr hnd)
        (List.mem_reverse.mpr he)
    rw [hfind]
  · show getattr (injectBindings d m) (pyCapitalize d.name) =
      some (.dialect d)
    exact getattr_setattr_self _ _ _
  · intro k hk hkcap
    show getattr (injectBindings d m) k = getattr m k
    unfold injectBindings
    rw [getattr_setattr_ne _ _ _ _ hkcap, getattr_bindEntities]
    have hnone : (d.attributes ++ d.operations).reverse.find?
        (fun x => x.pyName == k) = none := by
      rw [List.find?_eq_none]
      intro x hx hxk
      exact hk ((by simpa using hxk : x.pyName = k) ▸
        List.mem_map.mpr ⟨x, List.mem_reverse.mp hx, rfl⟩)
    rw [hnone]
  · show (injectBindings d m).length = _
    have hlen : (injectBindings d m).length =
        (keysOf (injectBindings d m)).length := by
      simp [keysOf]
    rw [hlen]
    unfold injectBindings
    rw [keys_setattr_not_mem _ _ _ (by
      rw [hkeysb]
      intro hmem
      rcases List.mem_append.mp hmem with h1 | h2
      · exact hcapfresh h1
      · exact hcap h2)]
    rw [hkeysb]
    simp [keysOf, Nat.add_assoc]

def dialectW : Dialect :=
  ⟨"arith", [⟨"IntAttr", "attrdef"⟩], [⟨"AddOp", "opdef"⟩, ⟨"SubOp", "opdef"⟩]⟩

def envOkW : LoadEnv :=
  { parse := fun t => .ok ⟨t⟩
    lookup_symbol := fun _ n =>
      if n == "arith" then some (.dialectOp "arith-body") else none
    make_dialect := fun _ => .ok dialectW
    generate_dialect_stubs := fun _ => "stubs"
    writeOk := fun _ => true }

theorem exec_module_bindings_witness :
    (exec_module envOkW ldrW fsW [("pre", .plain "p")]).err = none ∧
    (exec_module envOkW ldrW fsW [("pre", .plain "p")]).module.length = 5 :=
  have h := exec_module_bindings envOkW ldrW fsW [("pre", .plain "p")]
    "irdl.dialect bad" ⟨"irdl.dialect bad"⟩ "arith-body" dialectW
    rfl rfl rfl rfl rfl (by decide) (by decide)
    (by intro e he; fin_cases he <;> decide) (by decide)
  ⟨h.1, h.2.2.2.2⟩

def dialectAbW : Dialect := ⟨"aB", [], [⟨"op1", "opdef"⟩]⟩

def envAbW : LoadEnv :=
  { parse := fun t => .ok ⟨t⟩
    lookup_symbol := fun _ n =>
      if n == "ab" then some (.dialectOp "ab-body") else none
    make_dialect := fun _ => .ok dialectAbW
    generate_dialect_stubs := fun _ => "stubs"
    writeOk := fun _ => true }

def ldrAbW : IRDLDialectLoader := ⟨"dialects.ab", "dialects/ab.irdl"⟩

def fsAbW : FileSys := [("dialects/ab.irdl", "irdl.dialect ab")]

/-- C3 counterexample: for the dialect named `aB`, upper-casing the first
letter and leaving the remainder unchanged would give `AB`, but the code
binds the dialect handle under Python's `str.capitalize`, which also
lower-cases the remainder: the loaded module has a binding under `Ab` and
none under `AB`. -/
theorem capitalize_counterexample :
    pyCapitalize "aB" = "Ab" ∧ "Ab" ≠ "AB" ∧
    getattr (exec_module envAbW ldrAbW fsAbW []).module "Ab" =
      some (.dialect dialectAbW) ∧
    getattr (exec_module envAbW ldrAbW fsAbW []).module "AB" = none := by
  decide

/-- C3 (amended): the extra dialect-handle binding name is obtained from
the dialect's name by upper-casing its first character and lower-casing the
remainder (Python `str.capitalize`): after a successful load the Dialect
object is bound under exactly that name. -/
theorem exec_module_capitalize_binding (env : LoadEnv)
    (ldr : IRDLDialectLoader) (fs : FileSys) (m : ModuleNS) (text : String)
    (u : ParsedUnit) (body : String) (d : Dialect) (c : Char)
    (cs : List Char)
    (hr : readFile fs ldr.path = some text)
    (hp : env.parse text = .ok u)
    (hl : env.lookup_symbol u (pySplitextRoot (basename ldr.path)) =
      some (.dialectOp body))
    (hb : env.make_dialect body = .ok d)
    (hw : env.writeOk (dirname ldr.path ++ "/" ++
      pySplitextRoot (basename ldr.path) ++ ".pyi") = true)
    (hname : d.name.data = c :: cs) :
    getattr (exec_module env ldr fs m).module
      ⟨c.toUpper :: cs.map Char.toLower⟩ = some (.dialect d) := by
  have hcap : pyCapitalize d.name = ⟨c.toUpper :: cs.map Char.toLower⟩ := by
    unfold pyCapitalize
    simp only [hname]
  rw [exec_module_success_eq env ldr fs m text u body d hr hp hl hb hw]
  show getattr (injectBindings d m) _ = _
  rw [← hcap]
  exact getattr_setattr_self _ _ _

theorem exec_module_capitalize_binding_witness :
    getattr (exec_module envAbW ldrAbW fsAbW []).module
      ⟨'a'.toUpper :: ['B'].map Char.toLower⟩ = some (.dialect dialectAbW) :=
  exec_module_capitalize_binding envAbW ldrAbW fsAbW []
    "irdl.dialect ab" ⟨"irdl.dialect ab"⟩ "ab-body" dialectAbW 'a'
    ['B'] rfl rfl rfl rfl rfl rfl

/-- C10: binding injection installs all attribute-entities before all
operation-entities by plain attribute assignment, so when an
attribute-entity and an operation-entity share the name `n`, the value
observable under `n` in the final module is the operation-entity. -/
theorem exec_module_op_overwrites_attr (env : LoadEnv)
    (ldr : IRDLDialectLoader) (fs : FileSys) (m : ModuleNS) (text : String)
    (u : ParsedUnit) (body : String) (d : Dialect) (n : String) (a o : Entity)
    (hr : readFile fs ldr.path = some text)
    (hp : env.parse text = .ok u)
    (hl : env.lookup_symbol u (pySplitextRoot (basename ldr.path)) =
      some (.dialectOp body))
    (hb : env.make_dialect body = .ok d)
    (hw : env.writeOk (dirname ldr.path ++ "/" ++
      pySplitextRoot (basename ldr.path) ++ ".pyi") = true)
    (_ha : a ∈ d.attributes) (_han : a.pyName = n)
    (ho : d.operations.filter (fun e => e.pyName == n) = [o])
    (hne : n ≠ pyCapitalize d.name) :
    o ∈ d.operations ∧ o.pyName = n ∧
    getattr (exec_module env ldr fs m).module n = some (.entity o) := by
  have homem : o ∈ d.operations.filter (fun e => e.pyName == n) := by
    rw [ho]
    exact List.mem_singleton.mpr rfl
  have ho1 : o ∈ d.operations := (List.mem_filter.mp homem).1
  have ho2 : o.pyName = n := by
    have := (List.mem_filter.mp homem).2
    simpa using this
  refine ⟨ho1, ho2, ?_⟩
  rw [exec_module_success_eq env ldr fs m text u body d hr hp hl hb hw]
  show getattr (injectBindings d m) n = some (.entity o)
  unfold injectBindings
  rw [getattr_setattr_ne _ _ _ _ hne, getattr_bindEntities]
  have hfind : (d.attributes ++ d.operations).reverse.find?
      (fun x => x.pyName == n) = some o := by
    rw [List.reverse_append, List.find?_append,
      find?_reverse_of_filter d.operations _ o ho]
    rfl
  rw [hfind]

def dialectClashW : Dialect :=
  ⟨"clash", [⟨"X", "attrdef"⟩], [⟨"X", "opdef"⟩]⟩

def envClashW : LoadEnv :=
  { parse := fun t => .ok ⟨t⟩
    lookup_symbol := fun _ n =>
      if n == "clash" then some (.dialectOp "clash-body") else none
    make_dialect := fun _ => .ok dialectClashW
    generate_dialect_stubs := fun _ => "stubs"
    writeOk := fun _ => true }

def ldrClashW : IRDLDialectLoader := ⟨"dialects.clash", "dialects/clash.irdl"⟩

def fsClashW : FileSys := [("dialects/clash.irdl", "irdl.dialect clash")]

theorem exec_module_op_overwrites_attr_witness :
    getattr (exec_module envClashW ldrClashW fsClashW []).module "X" =
      some (.entity ⟨"X", "opdef"⟩) :=
  (exec_module_op_overwrites_attr envClashW ldrClashW fsClashW []
    "irdl.dialect clash" ⟨"irdl.dialect clash"⟩ "clash-body"
    dialectClashW "X" ⟨"X", "attrdef"⟩ ⟨"X", "opdef"⟩
    rfl rfl rfl rfl rfl (by decide) rfl (by decide) (by decide)).2.2
